import Mathlib

/-!
# Verification of `tech_automator.py`

A shallow embedding of the content-generation script `tech_automator.py`
(class `TechNewsAutomator`) together with proofs of the specified
properties of its components:

* `write_page` / `html_content` — the page template (an f-string),
  embedded as an explicit concatenation of its literal segments and
  interpolation points;
* `update_index` — scans a directory listing, extracts `<h1>` text and
  the description meta tag's `content` attribute from every non-index
  `.html` file, sorts by the date token of the filename, truncates to 10;
* `get_tech_news` — the headlines fetch, modelled over an explicit
  network outcome;
* `create_new_page` — filename construction;
* `update_styles` — the probabilistic stylesheet overwrite.

Text is modelled as `String` / `List Char`; the HTML extraction done by
BeautifulSoup (`soup.find('h1').text`, `soup.find('meta', ...)['content']`)
is modelled by first-occurrence scanning, which agrees with an HTML parser
on the documents considered here (first `<h1>` element containing no
nested markup or entity references, attribute value delimited by `"`).
-/

/-! ## First-occurrence scanning primitives

`afterFirst m s` returns the remainder of `s` after the first occurrence
of the marker `m` (`none` if `m` does not occur); `upTo m s` returns the
part of `s` strictly before the first occurrence of `m`.  Together they
model locating a tag and reading its delimited text. -/

def afterFirst (m : List Char) : List Char → Option (List Char)
  | [] => if m.isEmpty then some [] else none
  | c :: cs => if m.isPrefixOf (c :: cs) then some ((c :: cs).drop m.length)
               else afterFirst m cs

def upTo (m : List Char) : List Char → Option (List Char)
  | [] => if m.isEmpty then some [] else none
  | c :: cs => if m.isPrefixOf (c :: cs) then some []
               else (upTo m cs).map (c :: ·)

/-- The marker `m` cannot begin at any position of the chunk `X`
(not even as a match running past the end of `X` into whatever follows). -/
def NoStart (m X : List Char) : Prop :=
  ∀ i < X.length,
    if m.length ≤ X.length - i then ¬ m <+: X.drop i else ¬ X.drop i <+: m

instance (m X : List Char) : Decidable (NoStart m X) := by
  unfold NoStart; infer_instance

theorem not_prefix_append_of_noStart {m X : List Char} (h : NoStart m X)
    (hX : X ≠ []) (R : List Char) : ¬ m <+: X ++ R := by
  intro hpre
  have hlen : 0 < X.length := List.length_pos.mpr hX
  have h0 := h 0 hlen
  simp only [Nat.sub_zero, List.drop_zero] at h0
  by_cases hc : m.length ≤ X.length
  · rw [if_pos hc] at h0
    apply h0
    have := List.prefix_iff_eq_take.mp hpre
    rw [List.take_append_eq_append_take, Nat.sub_eq_zero_of_le hc,
      List.take_zero, List.append_nil] at this
    exact this ▸ List.take_prefix m.length X
  · rw [if_neg hc] at h0
    apply h0
    push_neg at hc
    have := List.prefix_iff_eq_take.mp hpre
    rw [List.take_append_eq_append_take, List.take_of_length_le (Nat.le_of_lt hc)] at this
    exact ⟨R.take (m.length - X.length), this.symm⟩

theorem noStart_cons {m : List Char} {c : Char} {X : List Char}
    (h : NoStart m (c :: X)) : NoStart m X := by
  intro i hi
  have := h (i + 1) (by simpa using Nat.succ_lt_succ hi)
  simpa using this

theorem afterFirst_cons_of_no_hit {m : List Char} {c : Char} {cs : List Char}
    (h : ¬ m <+: c :: cs) : afterFirst m (c :: cs) = afterFirst m cs := by
  rw [afterFirst, if_neg (by simpa using h)]

theorem afterFirst_skip {m X : List Char} (h : NoStart m X) (R : List Char) :
    afterFirst m (X ++ R) = afterFirst m R := by
  induction X with
  | nil => rfl
  | cons c X ih =>
    show afterFirst m (c :: (X ++ R)) = afterFirst m R
    have hnp : ¬ m <+: c :: (X ++ R) := fun hp =>
      not_prefix_append_of_noStart h (by simp) R hp
    rw [afterFirst_cons_of_no_hit hnp]
    exact ih (noStart_cons h)

theorem afterFirst_skip_head {c : Char} {mt X : List Char} (h : c ∉ X) (R : List Char) :
    afterFirst (c :: mt) (X ++ R) = afterFirst (c :: mt) R := by
  induction X with
  | nil => rfl
  | cons a X ih =>
    show afterFirst (c :: mt) (a :: (X ++ R)) = afterFirst (c :: mt) R
    have hnp : ¬ (c :: mt) <+: a :: (X ++ R) := by
      rw [List.cons_prefix_cons]
      rintro ⟨rfl, -⟩
      exact h (List.mem_cons_self _ _)
    rw [afterFirst_cons_of_no_hit hnp]
    exact ih (fun hx => h (List.mem_cons_of_mem _ hx))

theorem afterFirst_hit (m R : List Char) : afterFirst m (m ++ R) = some R := by
  cases m with
  | nil =>
    cases R with
    | nil => rfl
    | cons c cs => rw [List.nil_append, afterFirst, if_pos (by simp)]; simp
  | cons a m =>
    rw [List.cons_append, afterFirst,
      if_pos (by simp)]
    simp

theorem upTo_cons_of_no_hit {m : List Char} {c : Char} {cs : List Char}
    (h : ¬ m <+: c :: cs) : upTo m (c :: cs) = (upTo m cs).map (c :: ·) := by
  rw [upTo, if_neg (by simpa using h)]

theorem upTo_skip {m X : List Char} (h : NoStart m X) (R : List Char) :
    upTo m (X ++ R) = (upTo m R).map (X ++ ·) := by
  induction X with
  | nil =>
    simp only [List.nil_append]
    cases upTo m R <;> simp
  | cons c X ih =>
    show upTo m (c :: (X ++ R)) = (upTo m R).map ((c :: X) ++ ·)
    have hnp : ¬ m <+: c :: (X ++ R) := fun hp =>
      not_prefix_append_of_noStart h (by simp) R hp
    rw [upTo_cons_of_no_hit hnp, ih (noStart_cons h)]
    cases upTo m R <;> simp

theorem upTo_skip_head {c : Char} {mt X : List Char} (h : c ∉ X) (R : List Char) :
    upTo (c :: mt) (X ++ R) = (upTo (c :: mt) R).map (X ++ ·) := by
  induction X with
  | nil =>
    simp only [List.nil_append]
    cases upTo (c :: mt) R <;> simp
  | cons a X ih =>
    show upTo (c :: mt) (a :: (X ++ R)) = (upTo (c :: mt) R).map ((a :: X) ++ ·)
    have hnp : ¬ (c :: mt) <+: a :: (X ++ R) := by
      rw [List.cons_prefix_cons]
      rintro ⟨rfl, -⟩
      exact h (List.mem_cons_self _ _)
    rw [upTo_cons_of_no_hit hnp, ih (fun hx => h (List.mem_cons_of_mem _ hx))]
    cases upTo (c :: mt) R <;> simp

theorem upTo_hit {m : List Char} (hm : m ≠ []) (R : List Char) :
    upTo m (m ++ R) = some [] := by
  cases m with
  | nil => exact absurd rfl hm
  | cons a m =>
    rw [List.cons_append, upTo,
      if_pos (by simp)]

/-! ## Python string order

Python compares strings lexicographically by code point; `list.sort` with
`key=... , reverse=True` orders by the key descending and is stable.
`lexLeB x y` is code-point lexicographic `x <= y`. -/

def lexLeB : List Char → List Char → Bool
  | [], _ => true
  | _ :: _, [] => false
  | a :: as, b :: bs => if a < b then true else if b < a then false else lexLeB as bs

theorem lexLeB_total : ∀ x y : List Char, lexLeB x y = true ∨ lexLeB y x = true := by
  intro x
  induction x with
  | nil => intro y; left; rfl
  | cons a as ih =>
    intro y
    cases y with
    | nil => right; rfl
    | cons b bs =>
      rcases lt_trichotomy a b with h | h | h
      · left; simp [lexLeB, h]
      · subst h
        rcases ih bs with h' | h'
        · left; simp [lexLeB, lt_irrefl, h']
        · right; simp [lexLeB, lt_irrefl, h']
      · right; simp [lexLeB, h]

theorem lexLeB_trans :
    ∀ x y z : List Char, lexLeB x y = true → lexLeB y z = true → lexLeB x z = true := by
  intro x
  induction x with
  | nil => intro y z _ _; rfl
  | cons a as ih =>
    intro y z h1 h2
    cases y with
    | nil => simp [lexLeB] at h1
    | cons b bs =>
      cases z with
      | nil => simp [lexLeB] at h2
      | cons c cs =>
        simp only [lexLeB] at h1 h2 ⊢
        rcases lt_trichotomy a b with hab | hab | hab
        · rcases lt_trichotomy b c with hbc | hbc | hbc
          · simp [lt_trans hab hbc]
          · subst hbc; simp [hab]
          · rw [if_neg (asymm hbc), if_pos hbc] at h2; exact absurd h2 (by simp)
        · subst hab
          rw [if_neg (lt_irrefl a), if_neg (lt_irrefl a)] at h1
          rcases lt_trichotomy a c with hac | hac | hac
          · simp [hac]
          · subst hac
            rw [if_neg (lt_irrefl a), if_neg (lt_irrefl a)] at h2 ⊢
            exact ih bs cs h1 h2
          · rw [if_neg (asymm hac), if_pos hac] at h2; exact absurd h2 (by simp)
        · rw [if_neg (asymm hab), if_pos hab] at h1; exact absurd h1 (by simp)

/-! ## Data model

A `DirFile` is one file of the flat output directory (the only state
`update_index` reads); an `IndexEntry` is the dict appended to `articles`
in `update_index` (`{'title': ..., 'file': ..., 'date': ..., 'summary': ...}`). -/

deriving instance DecidableEq for Except

structure DirFile where
  name : String
  content : String
deriving DecidableEq

structure IndexEntry where
  title : String
  file : String
  date : String
  summary : String
deriving DecidableEq

/-- The sort order of `articles.sort(key=lambda x: x['date'], reverse=True)`:
`a` may come before `b` iff `b.date <= a.date` in string order. -/
def dateGe (a b : IndexEntry) : Prop := lexLeB b.date.data a.date.data = true

instance : DecidableRel dateGe := fun a b =>
  instDecidableEqBool (lexLeB b.date.data a.date.data) true

instance : IsTotal IndexEntry dateGe :=
  ⟨fun a b => lexLeB_total b.date.data a.date.data⟩

instance : IsTrans IndexEntry dateGe :=
  ⟨fun _ _ _ h1 h2 => lexLeB_trans _ _ _ h2 h1⟩

/-! ## Filename handling -/

/-- Python `str.split(sep)` for a one-character separator: splits at every
occurrence, keeps empty chunks, never returns an empty list
(`''.split('-') == ['']`). -/
def pysplit (sep : Char) : List Char → List (List Char)
  | [] => [[]]
  | c :: cs =>
    match pysplit sep cs with
    | [] => [[]]
    | h :: t => if c = sep then [] :: h :: t else (c :: h) :: t

/-- Python `pathlib.PurePath.stem` on a plain filename: drop the last
`.`-suffix, where the suffix is `name[i:]` for `i = name.rfind('.')`
only when `0 < i < len(name) - 1`. -/
def pyStem (name : List Char) : List Char :=
  match name.reverse.findIdx? (· = '.') with
  | none => name
  | some k =>
    let i := name.length - 1 - k
    if 0 < i ∧ i < name.length - 1 then name.take i else name

/-- The date token of `update_index`: `html_file.stem.split('-')[-1]`. -/
def dateToken (name : String) : String :=
  ⟨(pysplit '-' (pyStem name.data)).getLastD []⟩

/-- The filter of `Path(self.repo_path).glob('*.html')`: filenames ending
in `.html`. -/
def isHtmlName (name : String) : Bool :=
  ".html".data.isSuffixOf name.data

/-! ## The page template (`write_page`)

`write_page(filename, content, page_type, topic)` renders the f-string
`html_content` of the source and writes it to `filename`.  The two
`datetime.now()` interpolations (`'%B %d, %Y'` and `.year`) are
environment inputs, passed explicitly as `pub_date` and `year`.
The literal segments below are the f-string's text verbatim, split at the
interpolation points and at the tags the index scanner later looks for. -/

/-- The description meta tag rendered by `write_page`:
`<meta name="description" content="Latest {page_type} about {topic} in tech">`. -/
def descMetaTag (page_type topic : String) : String :=
  "<meta name=\"description\" content=\"" ++
    ("Latest " ++ page_type ++ " about " ++ topic ++ " in tech") ++ "\">"

/-- The title element rendered by `write_page`:
`<title>{topic} {page_type} - TechDaily</title>`. -/
def titleTag (page_type topic : String) : String :=
  "<title>" ++ (topic ++ " " ++ page_type ++ " - TechDaily") ++ "</title>"

/-- The article heading rendered by `write_page`:
`<h1>{topic} {page_type}</h1>`. -/
def h1Tag (page_type topic : String) : String :=
  "<h1>" ++ (topic ++ " " ++ page_type) ++ "</h1>"

/-- The content division rendered by `write_page`, with the generated body
inserted verbatim between the template's newline-and-indent runs. -/
def contentDiv (content : String) : String :=
  "<div class=\"content\">" ++
    ("\n                        " ++ content ++ "\n                    ") ++ "</div>"

/-- Template text before the description meta tag. -/
def seg0 : String := "\n        <!DOCTYPE html>\n        <html lang=\"en\">\n        <head>\n            <meta charset=\"UTF-8\">\n            <meta name=\"viewport\" content=\"width=device-width, initial-scale=1.0\">\n            "

/-- Template text between the title element and the article heading:
stylesheet link, head close, navigation, article open. -/
def segNav : String := "\n            <link rel=\"stylesheet\" href=\"style.css\">\n        </head>\n        <body>\n            <header>\n                <nav>\n                    <a href=\"index.html\">Home</a>\n                    <a href=\"#news\">News</a>\n                    <a href=\"#tutorials\">Tutorials</a>\n                    <a href=\"#analysis\">Analysis</a>\n                </nav>\n            </header>\n            <main>\n                <article>\n                    "

/-- Template text between the heading and the publish date. -/
def segPub : String := "\n                    <div class=\"metadata\">\n                        <span>Published: "

/-- Template text between the publish date and the category topic. -/
def segCat : String := "</span>\n                        <span>Category: "

/-- Template text between the category topic and the content division. -/
def segClose : String := "</span>\n                    </div>\n                    "

/-- Template text between the content division and the footer year. -/
def segFoot1 : String := "\n                </article>\n            </main>\n            <footer>\n                <p>© "

/-- Template text after the footer year. -/
def segFoot2 : String := " TechDaily - Updated Daily</p>\n            </footer>\n        </body>\n        </html>\n        "

/-- The f-string `html_content` of `write_page` (source lines 71-107),
as the concatenation of its literal segments and interpolation points. -/
def html_content (page_type topic content pub_date year : String) : String :=
  seg0 ++ descMetaTag page_type topic ++ "\n            " ++
    titleTag page_type topic ++ segNav ++ h1Tag page_type topic ++ segPub ++
    pub_date ++ segCat ++ topic ++ segClose ++ contentDiv content ++ segFoot1 ++
    year ++ segFoot2

/-- `write_page` as a state transformer on one directory file: it opens
`filename` for writing and writes `html_content`. -/
def write_page (filename content page_type topic pub_date year : String) : DirFile :=
  ⟨filename, html_content page_type topic content pub_date year⟩

/-! ## The index scanner (`update_index`)

`update_index` walks every `*.html` file except `index.html`, reads it,
and extracts `soup.find('h1').text` and
`soup.find('meta', {'name': 'description'})['content']`.  The extraction
is modelled by first-occurrence scanning: the first `<h1>` element's text
up to `</h1>`, and the text after the first
`<meta name="description" content="` up to the closing quote.  A missing
tag (`None.text` / `None['content']`) is a raised error, modelled as
`Option.none`. -/

def findH1 (doc : String) : Option String :=
  ((afterFirst "<h1>".data doc.data).bind (upTo "</h1>".data)).map String.mk

def findMetaDesc (doc : String) : Option String :=
  ((afterFirst "<meta name=\"description\" content=\"".data doc.data).bind
    (upTo ['"'])).map String.mk

/-- The dict built for one scanned file in `update_index` (source lines
55-64); `none` when the page lacks an `<h1>` or a description meta tag. -/
def parseArticle (f : DirFile) : Option IndexEntry :=
  (findH1 f.content).bind fun t => (findMetaDesc f.content).map fun s =>
    ⟨t, f.name, dateToken f.name, s⟩

/-- The scanning loop of `update_index`: every `.html` file other than
`index.html` contributes an entry; the first unparseable page aborts the
whole run with an uncaught error (carrying that filename). -/
def collectEntries : List DirFile → Except String (List IndexEntry)
  | [] => .ok []
  | f :: fs =>
    if isHtmlName f.name = true ∧ f.name ≠ "index.html" then
      match parseArticle f with
      | none => .error f.name
      | some e => (collectEntries fs).map (e :: ·)
    else collectEntries fs

/-- `articles.sort(key=lambda x: x['date'], reverse=True)`: a stable sort
putting greater date strings first. -/
def sortEntries (l : List IndexEntry) : List IndexEntry :=
  List.insertionSort dateGe l

/-- `update_index`: collect, sort descending by date token, truncate to 10.
The resulting list is what is handed to the index-page writer
(`write_index_page`, a collaborator absent from the source file); the run
fails with the scanning error otherwise. -/
def update_index (files : List DirFile) : Except String (List IndexEntry) :=
  (collectEntries files).map (fun arts => (sortEntries arts).take 10)

/-! ## The news fetch (`get_tech_news`)

`get_tech_news` performs `requests.get(url)` and returns
`response.json().get('articles', [])[:5]`.  The network outcome is an
explicit input: either a transport failure (which `requests.get` raises)
or a response with a status code and a body that may or may not parse as
JSON.  Note the source never calls `raise_for_status` and never inspects
`response.status_code`. -/

inductive Json where
  | null
  | bool (b : Bool)
  | num (n : Int)
  | str (s : String)
  | arr (elems : List Json)
  | obj (fields : List (String × Json))

inductive NetworkError where
  | connectionError
  | timeout
deriving DecidableEq

inductive PyError where
  | requestsException (e : NetworkError)
  | jsonDecodeError
  | attributeError
  | typeError
deriving DecidableEq

structure HttpResponse where
  status : Nat
  jsonBody : Option Json

/-- Python `dict.get(key, default)`; on a non-dict JSON value `.get`
raises `AttributeError`. -/
def jsonGetD (j : Json) (key : String) (default : Json) : Except PyError Json :=
  match j with
  | .obj fields => .ok (((fields.find? (fun kv => kv.1 == key)).map Prod.snd).getD default)
  | _ => .error .attributeError

/-- Python `[:5]` slicing: lists and strings are truncated, anything else
raises `TypeError`. -/
def pySlice5 : Json → Except PyError Json
  | .arr xs => .ok (.arr (xs.take 5))
  | .str s => .ok (.str ⟨s.data.take 5⟩)
  | _ => .error .typeError

/-- `get_tech_news` (source lines 19-23): a raised transport error or an
unparseable body propagates; otherwise the `articles` value (default
`[]`) truncated to 5 is returned.  The status code is never looked at. -/
def get_tech_news (net : Except NetworkError HttpResponse) : Except PyError Json :=
  match net with
  | .error e => .error (.requestsException e)
  | .ok resp =>
    match resp.jsonBody with
    | none => .error .jsonDecodeError
    | some j => jsonGetD j "articles" (.arr []) >>= pySlice5

/-- Top-level size of a JSON value (list/string length), for the
"up to 5 summaries" bound. -/
def jsonLen : Json → Nat
  | .arr xs => xs.length
  | .str s => s.length
  | _ => 0

/-! ## Page creation (`create_new_page`)

`create_new_page` draws a page type and a topic uniformly from two fixed
lists (modelled as explicit `Fin` choices), obtains body text from the
completion API, and derives the filename
`f"{page_type}-{topic.lower().replace(' ', '-')}-{datetime.now().strftime('%Y%m%d')}.html"`.
Only the returned filename is modelled here; the written document is
`write_page` above. -/

def page_types : List String := ["tutorial", "news", "analysis", "review", "comparison"]

def topics : List String := ["AI", "Cybersecurity", "Cloud Computing", "Mobile Tech", "Gaming"]

/-- Python `str.lower()` (ASCII range, which covers every topic in the
fixed list). -/
def pyLower (s : String) : String := ⟨s.data.map Char.toLower⟩

/-- `topic.lower().replace(' ', '-')`. -/
def slugify (topic : String) : String :=
  ⟨(pyLower topic).data.map (fun c => if c = ' ' then '-' else c)⟩

/-- Decimal digit characters of `n`, most significant first (empty for 0). -/
def natDigits (n : Nat) : List Char := ((Nat.digits 10 n).map Nat.digitChar).reverse

/-- Left-pad with `'0'` to width `w`, as the zero-padded `strftime`
conversions do. -/
def zfill (w : Nat) (cs : List Char) : List Char := List.replicate (w - cs.length) '0' ++ cs

/-- `datetime.now().strftime('%Y%m%d')` for the calendar date `y-m-d`:
zero-padded 4-digit year and 2-digit month and day. -/
def strftimeYYYYMMDD (y m d : Nat) : String :=
  ⟨zfill 4 (natDigits y) ++ zfill 2 (natDigits m) ++ zfill 2 (natDigits d)⟩

/-- The filename returned by `create_new_page` (source line 46) for the
random draws `ti`, `pi'` and the current date `y-m-d`. -/
def create_new_page (ti : Fin page_types.length) (pi' : Fin topics.length)
    (y m d : Nat) : String :=
  page_types.get ti ++ "-" ++ slugify (topics.get pi') ++ "-" ++
    strftimeYYYYMMDD y m d ++ ".html"

/-! ## The stylesheet writer (`update_styles`)

With probability 0.2 (`random.random() < 0.2`, the roll modelled as an
explicit rational input) one accent color is drawn from the fixed palette
and `style.css` is overwritten with the CSS f-string, whose only
interpolation point is the accent color.  `none` models "no write". -/

def colors : List String :=
  ["#1a73e8", "#ea4335", "#34a853", "#fbbc05",
   "#0a66c2", "#00a0dc", "#313335",
   "#1da1f2", "#14171a", "#657786"]

/-- The CSS template text before the accent-color interpolation point. -/
def cssPrefix : String := "\n            :root \x7b --accent-color: "

/-- The CSS template text after the accent-color interpolation point:
all the fixed structural rules. -/
def cssSuffix : String := "; \x7d\n            body \x7b\n                font-family: -apple-system, BlinkMacSystemFont, 'Segoe UI', Roboto, Oxygen-Sans, Ubuntu, Cantarell, sans-serif;\n                line-height: 1.6;\n                margin: 0;\n                padding: 0;\n                color: #333;\n            \x7d\n            header \x7b\n                background: var(--accent-color);\n                color: white;\n                padding: 1rem;\n            \x7d\n            nav a \x7b\n                color: white;\n                text-decoration: none;\n                margin-right: 1rem;\n            \x7d\n            main \x7b\n                max-width: 800px;\n                margin: 2rem auto;\n                padding: 0 1rem;\n            \x7d\n            article \x7b\n                background: white;\n                padding: 2rem;\n                border-radius: 8px;\n                box-shadow: 0 2px 4px rgba(0,0,0,0.1);\n            \x7d\n            .metadata \x7b\n                color: #666;\n                margin-bottom: 1rem;\n            \x7d\n            .metadata span \x7b\n                margin-right: 1rem;\n            \x7d\n            footer \x7b\n                text-align: center;\n                padding: 2rem;\n                background: #f5f5f5;\n            \x7d\n            "

/-- The `css_content` f-string of `update_styles` (source lines 122-164). -/
def css_content (accent_color : String) : String :=
  cssPrefix ++ accent_color ++ cssSuffix

/-- `update_styles` (source lines 112-167): the written stylesheet, or
`none` when the 20% roll does not trigger. -/
def update_styles (roll : ℚ) (i : Fin colors.length) : Option String :=
  if roll < 0.2 then some (css_content (colors.get i)) else none

/-! ## Claims -/

/-- C2: For every topic string and display-type string, the document
produced by the Page Renderer (`write_page`) has a title whose text
contains both the topic and the type, and a description meta tag whose
content attribute is exactly the string
`"Latest {type} about {topic} in tech"`: the document contains the title
element `<title>{topic} {page_type} - TechDaily</title>` (whose text has
the topic as a prefix and the type as an inner segment) and the meta tag
`<meta name="description" content="Latest {page_type} about {topic} in tech">`,
with the content attribute exactly the quote-delimited string. -/
theorem C2_write_page_title_and_meta (page_type topic content pub_date year : String) :
    (∃ A B : String, html_content page_type topic content pub_date year =
      A ++ (titleTag page_type topic ++ B)) ∧
    titleTag page_type topic =
      "<title>" ++ ((topic ++ " " ++ page_type ++ " - TechDaily") ++ "</title>") ∧
    (∃ R : String, topic ++ " " ++ page_type ++ " - TechDaily" = topic ++ R) ∧
    (∃ L R : String, topic ++ " " ++ page_type ++ " - TechDaily" = L ++ (page_type ++ R)) ∧
    (∃ A B : String, html_content page_type topic content pub_date year =
      A ++ (descMetaTag page_type topic ++ B)) ∧
    descMetaTag page_type topic =
      "<meta name=\"description\" content=\"" ++
        (("Latest " ++ page_type ++ " about " ++ topic ++ " in tech") ++ "\">") := by
  refine ⟨⟨seg0 ++ descMetaTag page_type topic ++ "\n            ",
      segNav ++ h1Tag page_type topic ++ segPub ++ pub_date ++ segCat ++ topic ++
        segClose ++ contentDiv content ++ segFoot1 ++ year ++ segFoot2, ?_⟩,
    ?_, ⟨" " ++ page_type ++ " - TechDaily", ?_⟩,
    ⟨topic ++ " ", " - TechDaily", ?_⟩,
    ⟨seg0, "\n            " ++ titleTag page_type topic ++ segNav ++
      h1Tag page_type topic ++ segPub ++ pub_date ++ segCat ++ topic ++ segClose ++
      contentDiv content ++ segFoot1 ++ year ++ segFoot2, ?_⟩, ?_⟩
  · simp [html_content, String.append_assoc]
  · simp [titleTag, String.append_assoc]
  · simp [String.append_assoc]
  · simp [String.append_assoc]
  · simp [html_content, String.append_assoc]
  · simp [descMetaTag, String.append_assoc]

/-- C8: For every body-content string passed to the Page Renderer
(`write_page`), the written document contains that string verbatim inside
the content div — the document contains
`<div class="content">` followed by the template's newline-and-indent,
then the content string unchanged, then the closing indentation and
`</div>`; no escaping or sanitization is applied. -/
theorem C8_write_page_content_verbatim (page_type topic content pub_date year : String) :
    (∃ A B : String, html_content page_type topic content pub_date year =
      A ++ (contentDiv content ++ B)) ∧
    contentDiv content =
      "<div class=\"content\">" ++
        (("\n                        " ++ content ++ "\n                    ") ++ "</div>") := by
  refine ⟨⟨seg0 ++ descMetaTag page_type topic ++ "\n            " ++
    titleTag page_type topic ++ segNav ++ h1Tag page_type topic ++ segPub ++
    pub_date ++ segCat ++ topic ++ segClose,
    segFoot1 ++ year ++ segFoot2, ?_⟩, ?_⟩
  · simp [html_content, String.append_assoc]
  · simp [contentDiv, String.append_assoc]

theorem natDigits_length_le {n k : Nat} (h : n < 10 ^ k) : (natDigits n).length ≤ k := by
  rcases Nat.eq_zero_or_pos n with rfl | hn
  · simp [natDigits]
  · have hlen : (Nat.digits 10 n).length = Nat.log 10 n + 1 :=
      Nat.digits_len 10 n (by norm_num) hn.ne'
    have hlog : Nat.log 10 n < k :=
      (Nat.lt_pow_iff_log_lt (by norm_num) hn.ne').mp h
    simp only [natDigits, List.length_reverse, List.length_map, hlen]
    omega

theorem digitChar_isDigit : ∀ d < 10, (Nat.digitChar d).isDigit = true := by decide

theorem natDigits_all_digit {n : Nat} : ∀ c ∈ natDigits n, c.isDigit = true := by
  intro c hc
  rcases List.mem_reverse.mp hc with hc'
  rcases List.mem_map.mp hc' with ⟨d, hd, rfl⟩
  exact digitChar_isDigit d (Nat.digits_lt_base (by norm_num) hd)

theorem zfill_length {w : Nat} {cs : List Char} (h : cs.length ≤ w) :
    (zfill w cs).length = w := by
  simp [zfill, List.length_append, List.length_replicate]
  omega

theorem zfill_all_digit {w : Nat} {cs : List Char} (h : ∀ c ∈ cs, c.isDigit = true) :
    ∀ c ∈ zfill w cs, c.isDigit = true := by
  intro c hc
  rcases List.mem_append.mp hc with hc' | hc'
  · rw [List.eq_of_mem_replicate hc']; rfl
  · exact h c hc'

/-- C3: For every run of the Page Creator (`create_new_page`) — every
random type/topic draw and every current date with a 4-digit year — the
returned filename is exactly
`{page_type}-{slug}-{date}.html` where `slug` is the chosen topic
lowercased with spaces replaced by hyphens (and so contains no space)
and the date string has exactly 8 characters, all decimal digits
(`YYYYMMDD`). -/
theorem C3_create_new_page_filename (ti : Fin page_types.length)
    (pi' : Fin topics.length) (y m d : Nat)
    (hy : y < 10000) (hm : m < 100) (hd : d < 100) :
    ∃ ds : String, ds.length = 8 ∧ (∀ c ∈ ds.data, c.isDigit = true) ∧
      create_new_page ti pi' y m d =
        page_types.get ti ++ "-" ++ slugify (topics.get pi') ++ "-" ++ ds ++ ".html" ∧
      ' ' ∉ (slugify (topics.get pi')).data := by
  refine ⟨strftimeYYYYMMDD y m d, ?_, ?_, rfl, ?_⟩
  · show (zfill 4 (natDigits y) ++ zfill 2 (natDigits m) ++ zfill 2 (natDigits d)).length = 8
    rw [List.length_append, List.length_append,
      zfill_length (natDigits_length_le (by simpa using hy)),
      zfill_length (natDigits_length_le (show m < 10 ^ 2 by simpa using hm)),
      zfill_length (natDigits_length_le (show d < 10 ^ 2 by simpa using hd))]
  · intro c hc
    rcases List.mem_append.mp hc with hc' | hc'
    · rcases List.mem_append.mp hc' with hc'' | hc''
      · exact zfill_all_digit natDigits_all_digit c hc''
      · exact zfill_all_digit natDigits_all_digit c hc''
    · exact zfill_all_digit natDigits_all_digit c hc'
  · intro hmem
    rcases List.mem_map.mp hmem with ⟨c, _, hceq⟩
    by_cases hcs : c = ' ' <;> simp [hcs] at hceq

/-- Witness for C3: the draw (news, Cloud Computing) on 2024-01-05. -/
theorem C3_create_new_page_filename_witness :
    ∃ ds : String, ds.length = 8 ∧ (∀ c ∈ ds.data, c.isDigit = true) ∧
      create_new_page ⟨1, by decide⟩ ⟨2, by decide⟩ 2024 1 5 =
        page_types.get ⟨1, by decide⟩ ++ "-" ++ slugify (topics.get ⟨2, by decide⟩) ++
          "-" ++ ds ++ ".html" ∧
      ' ' ∉ (slugify (topics.get ⟨2, by decide⟩)).data :=
  C3_create_new_page_filename ⟨1, by decide⟩ ⟨2, by decide⟩ 2024 1 5
    (by decide) (by decide) (by decide)

theorem append_sandwich_inj (p s x y : String) :
    p ++ (x ++ s) = p ++ (y ++ s) ↔ x = y := by
  constructor
  · intro h
    have hd : p.data ++ (x.data ++ s.data) = p.data ++ (y.data ++ s.data) := by
      have := congrArg String.data h
      simpa [String.data_append] using this
    have hx : x.data = y.data :=
      List.append_cancel_right (List.append_cancel_left hd)
    cases x; cases y
    exact congrArg String.mk (by simpa using hx)
  · rintro rfl; rfl

/-- C7: Whenever the Stylesheet Writer (`update_styles`) triggers
(roll below the 20% threshold), it writes the fixed CSS template
around an accent color from the palette; there is one template prefix
and one template suffix shared by all triggered invocations, so two
triggered outputs differ at most in the accent-color value (they are
equal exactly when the colors drawn are equal); a roll at or above the
threshold writes nothing. -/
theorem C7_update_styles_template :
    (∃ pre suf : String, ∀ (roll : ℚ) (i : Fin colors.length), roll < 0.2 →
        update_styles roll i = some (pre ++ (colors.get i ++ suf))) ∧
    (∀ (roll : ℚ) (i : Fin colors.length), ¬ roll < 0.2 → update_styles roll i = none) ∧
    (∀ (i j : Fin colors.length) (roll roll' : ℚ), roll < 0.2 → roll' < 0.2 →
        (update_styles roll i = update_styles roll' j ↔ colors.get i = colors.get j)) := by
  refine ⟨⟨cssPrefix, cssSuffix, fun roll i h => ?_⟩, fun roll i h => ?_,
    fun i j roll roll' h h' => ?_⟩
  · simp [update_styles, css_content, h, String.append_assoc]
  · simp [update_styles, h]
  · rw [update_styles, update_styles, if_pos h, if_pos h']
    simp only [Option.some_inj, css_content, String.append_assoc]
    exact append_sandwich_inj cssPrefix cssSuffix _ _

/-- Witness for C7: a roll of 0 triggers and writes the template around
the drawn color; a roll of 1/2 writes nothing. -/
theorem C7_update_styles_template_witness :
    (∃ pre suf : String,
      update_styles 0 ⟨0, by decide⟩ = some (pre ++ (colors.get ⟨0, by decide⟩ ++ suf))) ∧
    update_styles (1 / 2) ⟨0, by decide⟩ = none := by
  obtain ⟨⟨pre, suf, h1⟩, h2, -⟩ := C7_update_styles_template
  exact ⟨⟨pre, suf, h1 0 ⟨0, by decide⟩ (by norm_num)⟩,
    h2 (1 / 2) ⟨0, by decide⟩ (by norm_num)⟩

/-- C5 counterexample: a non-2xx response (HTTP 401 with the JSON error
body the news API sends for a bad key) does not raise: `get_tech_news`
returns the empty article list, because the source never checks
`response.status_code` and `dict.get('articles', [])` supplies a
fallback.  This refutes "any ... non-2xx HTTP response fails the whole
run (raises an error) rather than returning a value such as an empty or
fallback topic list". -/
theorem C5_counterexample :
    ¬ (200 ≤ 401 ∧ 401 < 300) ∧
    get_tech_news (.ok ⟨401, some (.obj [("status", Json.str "error"),
      ("code", Json.str "apiKeyInvalid")])⟩) = .ok (.arr []) :=
  ⟨by decide, rfl⟩

theorem pySlice5_len {u v : Json} (h : pySlice5 u = .ok v) : jsonLen v ≤ 5 := by
  cases u with
  | arr xs =>
    simp only [pySlice5, Except.ok.injEq] at h
    subst h
    exact List.length_take_le 5 xs
  | str s =>
    simp only [pySlice5, Except.ok.injEq] at h
    subst h
    exact List.length_take_le 5 s.data
  | null => simp [pySlice5] at h
  | bool b => simp [pySlice5] at h
  | num n => simp [pySlice5] at h
  | obj fields => simp [pySlice5] at h

/-- C5 (amended): the News Fetcher (`get_tech_news`) returns at most 5
article summaries, and a network failure (raised by `requests.get`)
fails the whole run; but the HTTP status code is never inspected, so a
non-2xx response is processed exactly like a 2xx one with the same body
— in particular a JSON body without an `articles` field yields the empty
list rather than an error. -/
theorem C5_get_tech_news_amended :
    (∀ (net : Except NetworkError HttpResponse) (v : Json),
        get_tech_news net = .ok v → jsonLen v ≤ 5) ∧
    (∀ e : NetworkError, get_tech_news (.error e) = .error (.requestsException e)) ∧
    (∀ (s₁ s₂ : Nat) (b : Option Json),
        get_tech_news (.ok ⟨s₁, b⟩) = get_tech_news (.ok ⟨s₂, b⟩)) := by
  refine ⟨fun net v h => ?_, fun e => rfl, fun s₁ s₂ b => rfl⟩
  rcases net with e | ⟨st, body⟩
  · simp [get_tech_news] at h
  · rcases body with _ | j
    · simp [get_tech_news] at h
    · rcases j with _ | b | n | s | xs | fields <;>
        simp only [get_tech_news, Bind.bind, Except.bind, jsonGetD] at h
      · exact Except.noConfusion h
      · exact Except.noConfusion h
      · exact Except.noConfusion h
      · exact Except.noConfusion h
      · exact Except.noConfusion h
      · exact pySlice5_len h

/-- Witness for C5 (amended): the 401 error-body response yields a list
of length 0 ≤ 5, and a timeout raises. -/
theorem C5_get_tech_news_amended_witness :
    jsonLen (Json.arr []) ≤ 5 ∧
    get_tech_news (.error .timeout) = .error (.requestsException .timeout) := by
  obtain ⟨h1, h2, -⟩ := C5_get_tech_news_amended
  exact ⟨h1 (.ok ⟨401, some (.obj [("status", Json.str "error"),
    ("code", Json.str "apiKeyInvalid")])⟩) (.arr []) rfl, h2 .timeout⟩

theorem parseArticle_eq_some {f : DirFile} {e : IndexEntry} (h : parseArticle f = some e) :
    ∃ t s, findH1 f.content = some t ∧ findMetaDesc f.content = some s ∧
      e = ⟨t, f.name, dateToken f.name, s⟩ := by
  simp only [parseArticle, Option.bind_eq_some, Option.map_eq_some'] at h
  rcases h with ⟨t, ht, s, hs, rfl⟩
  exact ⟨t, s, ht, hs, rfl⟩

theorem collectEntries_mem {fs : List DirFile} {l : List IndexEntry}
    (h : collectEntries fs = .ok l) :
    ∀ e ∈ l, ∃ f ∈ fs, (isHtmlName f.name = true ∧ f.name ≠ "index.html") ∧
      parseArticle f = some e := by
  induction fs generalizing l with
  | nil =>
    simp only [collectEntries, Except.ok.injEq] at h
    subst h
    intro e he
    cases he
  | cons f fs ih =>
    intro e he
    by_cases hcond : isHtmlName f.name = true ∧ f.name ≠ "index.html"
    · rcases hp : parseArticle f with _ | e'
      · simp only [collectEntries, if_pos hcond, hp] at h
        exact Except.noConfusion h
      · simp only [collectEntries, if_pos hcond, hp] at h
        rcases hrest : collectEntries fs with msg | l'
        · rw [hrest] at h; exact Except.noConfusion h
        · rw [hrest] at h
          simp only [Except.map, Except.ok.injEq] at h
          subst h
          rcases List.mem_cons.mp he with rfl | ht
          · exact ⟨f, List.mem_cons_self _ _, hcond, hp⟩
          · rcases ih hrest e ht with ⟨g, hg, hgc, hgp⟩
            exact ⟨g, List.mem_cons_of_mem _ hg, hgc, hgp⟩
    · simp only [collectEntries, if_neg hcond] at h
      rcases ih h e he with ⟨g, hg, hgc, hgp⟩
      exact ⟨g, List.mem_cons_of_mem _ hg, hgc, hgp⟩

theorem collectEntries_covers {fs : List DirFile} {l : List IndexEntry}
    (h : collectEntries fs = .ok l) :
    ∀ f ∈ fs, isHtmlName f.name = true → f.name ≠ "index.html" →
      ∃ e ∈ l, e.file = f.name := by
  induction fs generalizing l with
  | nil => intro f hf; cases hf
  | cons g fs ih =>
    intro f hf hhtml hidx
    by_cases hcond : isHtmlName g.name = true ∧ g.name ≠ "index.html"
    · rcases hp : parseArticle g with _ | e'
      · simp only [collectEntries, if_pos hcond, hp] at h
        exact Except.noConfusion h
      · simp only [collectEntries, if_pos hcond, hp] at h
        rcases hrest : collectEntries fs with msg | l'
        · rw [hrest] at h; exact Except.noConfusion h
        · rw [hrest] at h
          simp only [Except.map, Except.ok.injEq] at h
          subst h
          rcases List.mem_cons.mp hf with rfl | hf'
          · refine ⟨e', List.mem_cons_self _ _, ?_⟩
            rcases parseArticle_eq_some hp with ⟨t, s, -, -, rfl⟩
            rfl
          · rcases ih hrest f hf' hhtml hidx with ⟨e, he, hef⟩
            exact ⟨e, List.mem_cons_of_mem _ he, hef⟩
    · simp only [collectEntries, if_neg hcond] at h
      rcases List.mem_cons.mp hf with rfl | hf'
      · exact absurd ⟨hhtml, hidx⟩ hcond
      · exact ih h f hf' hhtml hidx

theorem collectEntries_error_of_bad {fs : List DirFile}
    (hbad : ∃ f ∈ fs, (isHtmlName f.name = true ∧ f.name ≠ "index.html") ∧
      parseArticle f = none) :
    ∃ msg, collectEntries fs = .error msg := by
  induction fs with
  | nil => rcases hbad with ⟨f, hf, -⟩; cases hf
  | cons g fs ih =>
    rcases hbad with ⟨f, hf, hfc, hfp⟩
    by_cases hcond : isHtmlName g.name = true ∧ g.name ≠ "index.html"
    · rcases hp : parseArticle g with _ | e'
      · exact ⟨g.name, by simp only [collectEntries, if_pos hcond, hp]⟩
      · have hffs : f ∈ fs := by
          rcases List.mem_cons.mp hf with rfl | hf'
          · rw [hp] at hfp; exact Option.noConfusion hfp
          · exact hf'
        rcases ih ⟨f, hffs, hfc, hfp⟩ with ⟨msg, hmsg⟩
        exact ⟨msg, by simp only [collectEntries, if_pos hcond, hp, hmsg, Except.map]⟩
    · have hffs : f ∈ fs := by
        rcases List.mem_cons.mp hf with rfl | hf'
        · exact absurd hfc hcond
        · exact hf'
      rcases ih ⟨f, hffs, hfc, hfp⟩ with ⟨msg, hmsg⟩
      exact ⟨msg, by simp only [collectEntries, if_neg hcond, hmsg]⟩

theorem collectEntries_ok_of_good {fs : List DirFile}
    (h : ∀ f ∈ fs, isHtmlName f.name = true → f.name ≠ "index.html" →
      parseArticle f ≠ none) :
    ∃ l, collectEntries fs = .ok l := by
  induction fs with
  | nil => exact ⟨[], rfl⟩
  | cons g fs ih =>
    rcases ih (fun f hf => h f (List.mem_cons_of_mem _ hf)) with ⟨l, hl⟩
    by_cases hcond : isHtmlName g.name = true ∧ g.name ≠ "index.html"
    · rcases hp : parseArticle g with _ | e'
      · exact absurd hp (h g (List.mem_cons_self _ _) hcond.1 hcond.2)
      · exact ⟨e' :: l, by simp only [collectEntries, if_pos hcond, hp, hl, Except.map]⟩
    · exact ⟨l, by simp only [collectEntries, if_neg hcond, hl]⟩

/-- C4: If any scanned article file (a `.html` file other than
`index.html`) lacks an `<h1>` element or a description meta tag, the
Index Rebuilder (`update_index`) raises an uncaught error that aborts
the run: the whole result is an error — the offending file is not
skipped and no entry list is produced for the remaining files. -/
theorem C4_update_index_error_on_bad_page {files : List DirFile}
    (hbad : ∃ f ∈ files, (isHtmlName f.name = true ∧ f.name ≠ "index.html") ∧
      parseArticle f = none) :
    ∃ msg, update_index files = .error msg := by
  rcases collectEntries_error_of_bad hbad with ⟨msg, hmsg⟩
  exact ⟨msg, by simp only [update_index, hmsg, Except.map]⟩

/-- Witness for C4: a directory with one article missing both tags. -/
theorem C4_update_index_error_on_bad_page_witness :
    ∃ msg, update_index [⟨"bad.html", "<p>no h1</p>"⟩] = .error msg :=
  C4_update_index_error_on_bad_page
    ⟨⟨"bad.html", "<p>no h1</p>"⟩, by decide, ⟨by decide, by decide⟩, by decide⟩

/-- C6: For every directory state, the Index Rebuilder (`update_index`)
excludes the file named `index.html` from the entries it collects (and so
from its output), even when `index.html` is present among the scanned
`.html` files; every other `.html` file in the directory is scanned and,
when the run succeeds, contributes an entry. -/
theorem C6_update_index_excludes_index :
    (∀ (files : List DirFile) (l : List IndexEntry), collectEntries files = .ok l →
        ∀ e ∈ l, e.file ≠ "index.html") ∧
    (∀ (files : List DirFile) (l : List IndexEntry), update_index files = .ok l →
        ∀ e ∈ l, e.file ≠ "index.html") ∧
    (∀ (files : List DirFile) (l : List IndexEntry), collectEntries files = .ok l →
        ∀ f ∈ files, isHtmlName f.name = true → f.name ≠ "index.html" →
          ∃ e ∈ l, e.file = f.name) := by
  have hfile : ∀ (files : List DirFile) (l : List IndexEntry), collectEntries files = .ok l →
      ∀ e ∈ l, e.file ≠ "index.html" := by
    intro files l h e he
    rcases collectEntries_mem h e he with ⟨f, -, ⟨-, hidx⟩, hp⟩
    rcases parseArticle_eq_some hp with ⟨t, s, -, -, rfl⟩
    exact hidx
  refine ⟨hfile, fun files l h e he => ?_, fun files l h => collectEntries_covers h⟩
  rcases hrest : collectEntries files with msg | l'
  · rw [update_index, hrest] at h; exact Except.noConfusion h
  · rw [update_index, hrest] at h
    simp only [Except.map, Except.ok.injEq] at h
    subst h
    have he' : e ∈ sortEntries l' := List.mem_of_mem_take he
    have he'' : e ∈ l' := (List.perm_insertionSort dateGe l').mem_iff.mp he'
    exact hfile files l' hrest e he''

/-- Witness for C6: a directory containing `index.html` (with content
that would not even parse) next to one article; the index file is
skipped without being read, the article is listed. -/
theorem C6_update_index_excludes_index_witness :
    (∀ e ∈ [(⟨"T", "a-1.html", "1", "S"⟩ : IndexEntry)], e.file ≠ "index.html") ∧
    (∃ e ∈ [(⟨"T", "a-1.html", "1", "S"⟩ : IndexEntry)], e.file = "a-1.html") := by
  obtain ⟨h1, -, h3⟩ := C6_update_index_excludes_index
  refine ⟨h1 [⟨"index.html", "garbage"⟩,
      ⟨"a-1.html", "<h1>T</h1><meta name=\"description\" content=\"S\">"⟩] _ (by decide),
    h3 [⟨"index.html", "garbage"⟩,
      ⟨"a-1.html", "<h1>T</h1><meta name=\"description\" content=\"S\">"⟩] _ (by decide)
      ⟨"a-1.html", "<h1>T</h1><meta name=\"description\" content=\"S\">"⟩
      (by decide) (by decide) (by decide)⟩

/-- The 15 pre-existing article files of the end-to-end scenario:
distinct embedded 8-digit dates 20240101..20240115, listed oldest
first. -/
def scenario15 : List DirFile :=
  (List.range 15).map fun i =>
    ⟨"news-ai-" ++ toString (20240101 + i) ++ ".html",
     "<h1>T" ++ toString i ++ "</h1>\n<meta name=\"description\" content=\"S" ++
       toString i ++ "\">"⟩

/-- The expected index listing for `scenario15`: the 10 lexically
greatest date tokens, descending. -/
def scenario15top10 : List IndexEntry :=
  (List.range 10).map fun j =>
    ⟨"T" ++ toString (14 - j), "news-ai-" ++ toString (20240115 - j) ++ ".html",
     toString (20240115 - j), "S" ++ toString (14 - j)⟩

/-- C1: For every directory state, the entry list produced by the Index
Rebuilder (`update_index`) holds at most 10 entries and is sorted by the
extracted date token in descending lexical (string) order; in
particular, on 15 valid article files with distinct embedded 8-digit
dates it is exactly the 10 entries with lexically greatest date tokens,
in descending order. -/
theorem C1_update_index_sorted_top10 :
    (∀ (files : List DirFile) (arts : List IndexEntry), update_index files = .ok arts →
        arts.length ≤ 10 ∧ arts.Sorted dateGe) ∧
    update_index scenario15 = .ok scenario15top10 := by
  refine ⟨fun files arts h => ?_, by decide⟩
  rcases hrest : collectEntries files with msg | l'
  · rw [update_index, hrest] at h; exact Except.noConfusion h
  · rw [update_index, hrest] at h
    simp only [Except.map, Except.ok.injEq] at h
    subst h
    exact ⟨List.length_take_le 10 _,
      (List.sorted_insertionSort dateGe l').sublist (List.take_sublist 10 _)⟩

/-- Witness for C1: the scenario listing itself is within the 10-entry
bound and descending. -/
theorem C1_update_index_sorted_top10_witness :
    scenario15top10.length ≤ 10 ∧ scenario15top10.Sorted dateGe :=
  C1_update_index_sorted_top10.1 scenario15 scenario15top10
    C1_update_index_sorted_top10.2

theorem pysplit_ne_nil (sep : Char) (cs : List Char) : pysplit sep cs ≠ [] := by
  induction cs with
  | nil => simp [pysplit]
  | cons c cs ih =>
    simp only [pysplit]
    rcases hr : pysplit sep cs with _ | ⟨h0, t⟩
    · simp
    · by_cases hc : c = sep <;> simp [hc]

theorem pysplit_spec (sep : Char) (cs : List Char) :
    sep ∉ (pysplit sep cs).getLastD [] ∧
    (sep ∉ cs → pysplit sep cs = [cs]) ∧
    (sep ∈ cs → 2 ≤ (pysplit sep cs).length ∧
      ∃ pre, cs = pre ++ sep :: (pysplit sep cs).getLastD []) := by
  induction cs with
  | nil => exact ⟨by simp [pysplit], fun _ => rfl, fun h => absurd h (by simp)⟩
  | cons c cs ih =>
    obtain ⟨ih1, ih2, ih3⟩ := ih
    rcases hr : pysplit sep cs with _ | ⟨h0, t⟩
    · exact absurd hr (pysplit_ne_nil sep cs)
    · rw [hr] at ih1
      by_cases hc : c = sep
      · subst hc
        have hsplit : pysplit c (c :: cs) = [] :: h0 :: t := by
          simp [pysplit, hr]
        refine ⟨?_, ?_, ?_⟩
        · rw [hsplit, List.getLastD_cons]
          exact ih1
        · intro hns; exact absurd (List.mem_cons_self _ _) hns
        · intro _
          refine ⟨by rw [hsplit]; simp, ?_⟩
          by_cases hmem : c ∈ cs
          · obtain ⟨-, pre, hpre⟩ := ih3 hmem
            rw [hr] at hpre
            refine ⟨c :: pre, ?_⟩
            rw [hsplit, List.getLastD_cons, List.cons_append]
            exact congrArg (c :: ·) hpre
          · have h2 := ih2 hmem
            rw [hr] at h2
            injection h2 with e1 e2
            subst e1; subst e2
            refine ⟨[], ?_⟩
            rw [hsplit, List.getLastD_cons, List.getLastD_cons, List.getLastD_nil]
            simp
      · have hsplit : pysplit sep (c :: cs) = (c :: h0) :: t := by
          simp [pysplit, hr, hc]
        refine ⟨?_, ?_, ?_⟩
        · rw [hsplit]
          rcases t with _ | ⟨t0, ts⟩
          · rw [List.getLastD_cons, List.getLastD_nil]
            rw [List.getLastD_cons, List.getLastD_nil] at ih1
            intro hmem
            rcases List.mem_cons.mp hmem with hsc | hmem'
            · exact hc hsc.symm
            · exact ih1 hmem'
          · rw [List.getLastD_cons, List.getLastD_cons]
            rw [List.getLastD_cons, List.getLastD_cons] at ih1
            exact ih1
        · intro hns
          have hnc : sep ∉ cs := fun hx => hns (List.mem_cons_of_mem _ hx)
          have h2 := ih2 hnc
          rw [hr] at h2
          injection h2 with e1 e2
          subst e1; subst e2
          rw [hsplit]
        · intro hmem
          have hmem' : sep ∈ cs := by
            rcases List.mem_cons.mp hmem with hsc | hx
            · exact absurd hsc.symm hc
            · exact hx
          obtain ⟨hlen, pre, hpre⟩ := ih3 hmem'
          rw [hr] at hlen hpre
          rcases t with _ | ⟨t0, ts⟩
          · simp at hlen
          · refine ⟨by rw [hsplit]; simp, c :: pre, ?_⟩
            rw [hsplit, List.getLastD_cons, List.getLastD_cons]
            rw [List.getLastD_cons, List.getLastD_cons] at hpre
            rw [List.cons_append]
            exact congrArg (c :: ·) hpre

/-- C9: the date-token extraction of the Index Rebuilder is total over
filenames: every entry's date is `stem.split('-')[-1]`; when the stem
contains no hyphen the token is the whole stem, and when it does the
token is exactly the hyphen-free segment after the last hyphen; no
filename shape can make the scan fail — whenever every qualifying page
parses, `update_index` succeeds, whatever the filenames look like. -/
theorem C9_date_token_total :
    (∀ (f : DirFile) (e : IndexEntry), parseArticle f = some e →
        e.date = dateToken f.name) ∧
    (∀ name : String, '-' ∉ pyStem name.data →
        (dateToken name).data = pyStem name.data) ∧
    (∀ name : String, '-' ∈ pyStem name.data →
        ∃ pre, pyStem name.data = pre ++ '-' :: (dateToken name).data ∧
          '-' ∉ (dateToken name).data) ∧
    (∀ files : List DirFile,
        (∀ f ∈ files, isHtmlName f.name = true → f.name ≠ "index.html" →
          parseArticle f ≠ none) →
        ∃ l, update_index files = .ok l) := by
  refine ⟨fun f e h => ?_, fun name h => ?_, fun name h => ?_, fun files h => ?_⟩
  · rcases parseArticle_eq_some h with ⟨t, s, -, -, rfl⟩; rfl
  · have h2 := (pysplit_spec '-' (pyStem name.data)).2.1 h
    show (pysplit '-' (pyStem name.data)).getLastD [] = pyStem name.data
    rw [h2, List.getLastD_cons, List.getLastD_nil]
  · obtain ⟨-, pre, hpre⟩ := (pysplit_spec '-' (pyStem name.data)).2.2 h
    exact ⟨pre, hpre, (pysplit_spec '-' (pyStem name.data)).1⟩
  · rcases collectEntries_ok_of_good h with ⟨l, hl⟩
    exact ⟨(sortEntries l).take 10, by simp only [update_index, hl, Except.map]⟩

/-- Witness for C9: a scanned entry's date token, a hyphen-free stem, a
dated filename, and a run over a file with no date-like name at all. -/
theorem C9_date_token_total_witness :
    (⟨"T", "a.html", "a", "S"⟩ : IndexEntry).date = dateToken "a.html" ∧
    (dateToken "20240101.html").data = pyStem "20240101.html".data ∧
    (∃ pre, pyStem "news-ai-20240101.html".data =
        pre ++ '-' :: (dateToken "news-ai-20240101.html").data ∧
      '-' ∉ (dateToken "news-ai-20240101.html").data) ∧
    (∃ l, update_index [⟨"weird_name.html",
        "<h1>T</h1><meta name=\"description\" content=\"S\">"⟩] = .ok l) := by
  obtain ⟨h1, h2, h3, h4⟩ := C9_date_token_total
  exact ⟨h1 ⟨"a.html", "<h1>T</h1><meta name=\"description\" content=\"S\">"⟩
      ⟨"T", "a.html", "a", "S"⟩ (by decide),
    h2 "20240101.html" (by decide), h3 "news-ai-20240101.html" (by decide),
    h4 _ (by decide)⟩

theorem strMk_data (s : String) : String.mk s.data = s := by cases s; rfl

theorem mk_data_append (s : String) (l : List Char) :
    String.mk (s.data ++ l) = s ++ String.mk l := by cases s; rfl

theorem afterFirst_skip_of_head {m : List Char} {c : Char} {X : List Char}
    (hm : m.head? = some c) (h : c ∉ X) (R : List Char) :
    afterFirst m (X ++ R) = afterFirst m R := by
  cases m with
  | nil => cases hm
  | cons a mt =>
    rw [List.head?_cons, Option.some_inj] at hm
    subst hm
    exact afterFirst_skip_head h R

theorem upTo_skip_of_head {m : List Char} {c : Char} {X : List Char}
    (hm : m.head? = some c) (h : c ∉ X) (R : List Char) :
    upTo m (X ++ R) = (upTo m R).map (X ++ ·) := by
  cases m with
  | nil => cases hm
  | cons a mt =>
    rw [List.head?_cons, Option.some_inj] at hm
    subst hm
    exact upTo_skip_head h R

theorem upTo_hit_of_pre {m X : List Char} (hm : m ≠ []) (hpre : m <+: X) (R : List Char) :
    upTo m (X ++ R) = some [] := by
  cases X with
  | nil =>
    rw [List.prefix_nil] at hpre
    exact absurd hpre hm
  | cons x xs =>
    show upTo m (x :: (xs ++ R)) = some []
    rw [upTo, if_pos]
    simpa using hpre.trans (List.prefix_append (x :: xs) R)

set_option maxRecDepth 100000

theorem findMetaDesc_html_content (page_type topic content pub_date year : String)
    (hP : '"' ∉ page_type.data) (hT : '"' ∉ topic.data) :
    findMetaDesc (html_content page_type topic content pub_date year) =
      some ("Latest " ++ page_type ++ " about " ++ topic ++ " in tech") := by
  have hstr : html_content page_type topic content pub_date year =
      seg0 ++ "<meta name=\"description\" content=\"" ++ "Latest " ++ page_type ++
        " about " ++ topic ++ " in tech" ++ "\">" ++ "\n            " ++
        titleTag page_type topic ++ segNav ++ h1Tag page_type topic ++ segPub ++
        pub_date ++ segCat ++ topic ++ segClose ++ contentDiv content ++ segFoot1 ++
        year ++ segFoot2 := by
    simp only [html_content, descMetaTag, String.append_assoc]
  unfold findMetaDesc
  rw [hstr]
  simp only [String.data_append, List.append_assoc]
  rw [afterFirst_skip (by decide :
    NoStart "<meta name=\"description\" content=\"".data seg0.data)]
  rw [afterFirst_hit]
  simp only [Option.some_bind]
  rw [upTo_skip (by decide : NoStart ['"'] "Latest ".data)]
  rw [upTo_skip_of_head (by decide : (['"'] : List Char).head? = some '"') hP]
  rw [upTo_skip (by decide : NoStart ['"'] " about ".data)]
  rw [upTo_skip_of_head (by decide : (['"'] : List Char).head? = some '"') hT]
  rw [upTo_skip (by decide : NoStart ['"'] " in tech".data)]
  rw [upTo_hit_of_pre (by decide) (by decide : ['"'] <+: "\">".data)]
  simp only [Option.map_some', List.append_nil]
  rw [mk_data_append, mk_data_append, mk_data_append, mk_data_append, strMk_data]
  simp [String.append_assoc]

theorem findH1_html_content (page_type topic content pub_date year : String)
    (hP : '<' ∉ page_type.data) (hT : '<' ∉ topic.data) :
    findH1 (html_content page_type topic content pub_date year) =
      some (topic ++ " " ++ page_type) := by
  have hstr : html_content page_type topic content pub_date year =
      seg0 ++ "<meta name=\"description\" content=\"" ++ "Latest " ++ page_type ++
        " about " ++ topic ++ " in tech" ++ "\">" ++ "\n            " ++
        "<title>" ++ topic ++ " " ++ page_type ++ " - TechDaily" ++ "</title>" ++
        segNav ++ "<h1>" ++ topic ++ " " ++ page_type ++ "</h1>" ++ segPub ++
        pub_date ++ segCat ++ topic ++ segClose ++ contentDiv content ++ segFoot1 ++
        year ++ segFoot2 := by
    simp only [html_content, descMetaTag, titleTag, h1Tag, String.append_assoc]
  unfold findH1
  rw [hstr]
  simp only [String.data_append, List.append_assoc]
  rw [afterFirst_skip (by decide : NoStart "<h1>".data seg0.data)]
  rw [afterFirst_skip (by decide :
    NoStart "<h1>".data "<meta name=\"description\" content=\"".data)]
  rw [afterFirst_skip (by decide : NoStart "<h1>".data "Latest ".data)]
  rw [afterFirst_skip_of_head (by decide : ("<h1>".data).head? = some '<') hP]
  rw [afterFirst_skip (by decide : NoStart "<h1>".data " about ".data)]
  rw [afterFirst_skip_of_head (by decide : ("<h1>".data).head? = some '<') hT]
  rw [afterFirst_skip (by decide : NoStart "<h1>".data " in tech".data)]
  rw [afterFirst_skip (by decide : NoStart "<h1>".data "\">".data)]
  rw [afterFirst_skip (by decide : NoStart "<h1>".data "\n            ".data)]
  rw [afterFirst_skip (by decide : NoStart "<h1>".data "<title>".data)]
  rw [afterFirst_skip_of_head (by decide : ("<h1>".data).head? = some '<') hT]
  rw [afterFirst_skip (by decide : NoStart "<h1>".data " ".data)]
  rw [afterFirst_skip_of_head (by decide : ("<h1>".data).head? = some '<') hP]
  rw [afterFirst_skip (by decide : NoStart "<h1>".data " - TechDaily".data)]
  rw [afterFirst_skip (by decide : NoStart "<h1>".data "</title>".data)]
  rw [afterFirst_skip (by decide : NoStart "<h1>".data segNav.data)]
  rw [afterFirst_hit]
  simp only [Option.some_bind]
  rw [upTo_skip_of_head (by decide : ("</h1>".data).head? = some '<') hT]
  rw [upTo_skip (by decide : NoStart "</h1>".data " ".data)]
  rw [upTo_skip_of_head (by decide : ("</h1>".data).head? = some '<') hP]
  rw [upTo_hit (by decide : ("</h1>".data : List Char) ≠ [])]
  simp only [Option.map_some', List.append_nil]
  rw [mk_data_append, mk_data_append, strMk_data]
  simp [String.append_assoc]

theorem collectEntries_cons_pos {f : DirFile} {fs : List DirFile} {e : IndexEntry}
    (hc : isHtmlName f.name = true ∧ f.name ≠ "index.html")
    (hp : parseArticle f = some e) :
    collectEntries (f :: fs) = (collectEntries fs).map (e :: ·) := by
  simp only [collectEntries, if_pos hc, hp]

/-- C10 (amended): Round-trip between rendering and index parsing — for
every topic and display type containing no `"`, `<` or `&` character
(so that the rendered attribute value and heading are well formed; the
actual topic/type palettes satisfy this), every body content, and every
qualifying filename, a page written by
`write_page(filename, content, type, topic)` and then scanned by
`update_index`'s collector yields exactly one entry whose title is
`"{topic} {type}"` (the rendered `<h1>` text) and whose summary is
`"Latest {type} about {topic} in tech"` (the rendered description meta
content), because the template's `<h1>` and meta tag precede any
content-supplied ones in document order. -/
theorem C10_roundtrip_write_page_scan
    (topic page_type content pub_date year fname : String)
    (hq1 : '"' ∉ topic.data) (hq2 : '"' ∉ page_type.data)
    (hl1 : '<' ∉ topic.data) (hl2 : '<' ∉ page_type.data)
    (_ : '&' ∉ topic.data) (_ : '&' ∉ page_type.data)
    (hhtml : isHtmlName fname = true) (hidx : fname ≠ "index.html") :
    collectEntries [write_page fname content page_type topic pub_date year] =
      .ok [⟨topic ++ " " ++ page_type, fname, dateToken fname,
        "Latest " ++ page_type ++ " about " ++ topic ++ " in tech"⟩] := by
  have hparse : parseArticle (write_page fname content page_type topic pub_date year) =
      some ⟨topic ++ " " ++ page_type, fname, dateToken fname,
        "Latest " ++ page_type ++ " about " ++ topic ++ " in tech"⟩ := by
    simp only [parseArticle, write_page]
    rw [findH1_html_content page_type topic content pub_date year hl2 hl1,
      findMetaDesc_html_content page_type topic content pub_date year hq2 hq1]
    rfl
  rw [collectEntries_cons_pos ⟨hhtml, hidx⟩ hparse]
  rfl

/-- Witness for C10: the actual draw (AI, News) on a concrete day. -/
theorem C10_roundtrip_write_page_scan_witness :
    collectEntries [write_page "news-ai-20240101.html" "body text" "News" "AI"
        "January 01, 2024" "2024"] =
      .ok [⟨"AI" ++ " " ++ "News", "news-ai-20240101.html",
        dateToken "news-ai-20240101.html",
        "Latest " ++ "News" ++ " about " ++ "AI" ++ " in tech"⟩] :=
  C10_roundtrip_write_page_scan "AI" "News" "body text" "January 01, 2024" "2024"
    "news-ai-20240101.html" (by decide) (by decide) (by decide) (by decide)
    (by decide) (by decide) (by decide) (by decide)

/-- C10 counterexample: with a topic containing a quote character the
round-trip claim as stated fails — the rendered attribute value is cut
at the quote, so the scanned summary is `"Latest News about AI"` rather
than `"Latest News about AI\" in tech"`.  (The title round-trips, the
summary does not.) -/
theorem C10_counterexample :
    collectEntries [write_page "news-ai-20240101.html" "x" "News" "AI\""
        "January 01, 2024" "2024"] =
      .ok [⟨"AI\" News", "news-ai-20240101.html", "20240101",
        "Latest News about AI"⟩] ∧
    ("Latest News about AI" : String) ≠ "Latest News about AI\" in tech" :=
  ⟨by decide, by decide⟩
